import Mathlib

/-!
Shallow embedding of the response consensus engine and batch response
demultiplexer of `server.js`, together with theorems settling the frozen
claims about them.

Conventions of the embedding:
* JS strings are Lean `String`s; `.length` is the character count (all inputs
  of interest are ASCII, where JS UTF-16 length and character count agree).
* `text.toLowerCase()` / `text.trim()` are modelled by `jsLower` / `jsTrim`
  over the character list, with the JS whitespace class restricted to its
  ASCII members (the only ones the program can meet in practice).
* `text.split(/\s+/)` is modelled by `jsWords`; the call sites only ever
  apply it to already-trimmed strings, where splitting on whitespace runs
  and collecting the nonempty tokens agrees with the JS semantics
  (a fully empty string yields `[""]`, exactly as in JS).
* the floating comparison `similarity > 0.8` where
  `similarity = common / max` is modelled by the exact rational comparison
  `5 * common > 4 * max`, which coincides with the IEEE computation for
  every feasible word count.
* JS regexes used by the demultiplexer are modelled by a small backtracking
  matcher with JS semantics (leftmost match, greedy/lazy quantifier
  priority, ordered alternation, zero-width lookahead and anchors).
-/

/-- ASCII members of the JS `\s` class (space, tab, LF, VT, FF, CR). -/
def jsSpace (c : Char) : Bool :=
  c = ' ' || c = '\t' || c = '\n' || c = '\x0b' || c = '\x0c' || c = '\r'

/-- The JS `\w` class: `[A-Za-z0-9_]`. -/
def jsWordChar (c : Char) : Bool :=
  c.isAlphanum || c = '_'

/-- Model of `s.toLowerCase()` (ASCII case mapping). -/
def jsLower (s : String) : String :=
  String.mk (s.data.map Char.toLower)

/-- Model of `s.trim()`: drop leading and trailing whitespace. -/
def jsTrim (s : String) : String :=
  String.mk (((s.data.dropWhile jsSpace).reverse.dropWhile jsSpace).reverse)

/-- Maximal runs of characters not satisfying `p`, in order; separator
characters are dropped.  Auxiliary accumulator-passing tokenizer. -/
def tokensAux (p : Char → Bool) : List Char → List Char → List (List Char)
  | acc, [] => if acc = [] then [] else [acc.reverse]
  | acc, c :: rest =>
    if p c then
      (if acc = [] then tokensAux p [] rest else acc.reverse :: tokensAux p [] rest)
    else
      tokensAux p (c :: acc) rest

/-- Model of `s.split(/\s+/)` as used on already-trimmed strings: the
whitespace-separated tokens of `s`; the empty string yields `[""]` (one
empty token), exactly as in JS. -/
def jsWords (s : String) : List String :=
  match tokensAux jsSpace [] s.data with
  | [] => [ ""]
  | ts => ts.map String.mk

def statusError : String := "error"

def statusConsensus : String := "consensus"

def statusPartialTag : String := "partial"

def statusDifferent : String := "different"

/-- One model response record, covering the fields of the JS response
objects that flow through `analyzeResponses` and `parseBatchResponse`.
Fields that a given object lacks are `none`. -/
structure Response where
  response : String := ""
  success : Bool := false
  error : Option String := none
  model : String := ""
  filename : Option String := none
  matchCount : Option Nat := none
  status : Option String := none
deriving DecidableEq, Repr, Inhabited

/-- Normalization applied to each successful response text before
comparison: `r.response.toLowerCase().trim()`. -/
def normText (r : Response) : String :=
  jsTrim (jsLower r.response)

/-- The per-pair comparison used inside `analyzeResponses`: single-letter
and short (≤ 5 chars) answers compare by exact equality, longer answers by
word overlap `commonWords.length / max(words1.length, words2.length) > 0.8`
(exact rational form `5 * common > 4 * max`). -/
def respMatch (currentText text : String) : Bool :=
  if currentText.length = 1 ∧ text.length = 1 then
    currentText == text
  else if currentText.length ≤ 5 ∧ text.length ≤ 5 then
    currentText == text
  else
    let words1 := jsWords currentText
    let words2 := jsWords text
    let commonWords := words1.filter (fun word => words2.contains word)
    decide (4 * max words1.length words2.length < 5 * commonWords.length)

/-- Tagging of one failed response: `{ ...r, status: 'error' }`. -/
def errTag (r : Response) : Response :=
  { r with status := some statusError }

/-- Tagging of one successful response given the full normalized text list:
count matchList, then assign `consensus` / `partial` / `different`. -/
def tagOf (responseTexts : List String) (p : Response × String) : Response :=
  let matchList := responseTexts.filter (fun text => respMatch p.2 text)
  let st :=
    if matchList.length = responseTexts.length then statusConsensus
    else if 1 < matchList.length then statusPartialTag
    else statusDifferent
  { p.1 with matchCount := some matchList.length, status := some st }

/-- Embedding of `analyzeResponses` (server.js): partition by `success`,
compare the normalized texts of the successful responses pairwise, tag each
with `matchCount` and `status`, and append the failed responses tagged
`error`. -/
def analyzeResponses (responses : List Response) : List Response :=
  let successfulResponses := responses.filter (fun r => r.success)
  if successfulResponses.length < 1 then
    responses.map errTag
  else
    let responseTexts := successfulResponses.map normText
    ((successfulResponses.zip responseTexts).map (tagOf responseTexts))
      ++ (responses.filter (fun r => !r.success)).map errTag

/-- Number of successful answers of `rs` whose normalized text the analyzer
judges equivalent to the normalized text of `s` (the `matchCount` of an
answer with text `s`). -/
def countEquiv (rs : List Response) (s : String) : Nat :=
  (((rs.filter (fun r => r.success)).map normText).filter
    (fun text => respMatch (jsTrim (jsLower s)) text)).length

/-- Occurrence-counted word overlap actually computed by the code:
the number of positions of `words(a)` whose word also occurs in
`words(b)`. Duplicates on the left inflate the count. -/
def codeOverlapCount (a b : String) : Nat :=
  ((jsWords a).filter (fun word => (jsWords b).contains word)).length

/-- Modelled from the spec wording of the overlap rule: the number of
DISTINCT shared words, `|words(a) ∩ words(b)|`, counting each shared
distinct word once. -/
def specOverlapCount (a b : String) : Nat :=
  ((jsWords a).dedup.filter (fun word => (jsWords b).contains word)).length

/-- Modelled from the spec: the claimed equivalence judgement — exact
equality when both normalized texts have length ≤ 5, otherwise distinct
shared words over the larger word count must exceed 0.8. -/
def specEquivalent (a b : String) : Bool :=
  if a.length ≤ 5 ∧ b.length ≤ 5 then a == b
  else
    decide ((specOverlapCount a b : ℚ) /
      (max (jsWords a).length (jsWords b).length : ℚ) > 4 / 5)

/-- Case-insensitive character comparison (the JS `i` flag, ASCII). -/
def lowEq (a b : Char) : Bool :=
  a.toLower == b.toLower

/-- Continuation of a regex matcher: receives the unconsumed suffix and
produces the final captured group when the rest of the pattern succeeds. -/
abbrev RCont : Type := List Char → Option (List Char)

/-- A regex fragment in continuation-passing style: given the input suffix
and the continuation for the rest of the pattern, produce the capture of
the overall match, trying its own parse alternatives in JS priority order
and backtracking into the continuation. -/
abbrev RPat : Type := List Char → RCont → Option (List Char)

/-- Single character matching a predicate (a character class). -/
def pChr (p : Char → Bool) : RPat := fun cs k =>
  match cs with
  | [] => none
  | c :: rest => if p c then k rest else none

/-- Sequencing of two fragments. -/
def pSeq (a b : RPat) : RPat := fun cs k =>
  a cs (fun rest => b rest k)

/-- Ordered alternation: the left branch is preferred, as in JS. -/
def pAlt (a b : RPat) : RPat := fun cs k =>
  (a cs k).orElse (fun _ => b cs k)

/-- Case-insensitive literal (the escaped filename and keyword literals of
the demultiplexer patterns, all compiled with the `i` flag). -/
def pLit : List Char → RPat
  | [] => fun cs k => k cs
  | l :: ls => pSeq (pChr (fun c => lowEq c l)) (pLit ls)

/-- Greedy star over a single-character class: consume as many matching
characters as possible, backtracking one at a time. -/
def starGo (p : Char → Bool) : List Char → RCont → Option (List Char)
  | [], k => k []
  | c :: rest, k =>
    if p c then (starGo p rest k).orElse (fun _ => k (c :: rest))
    else k (c :: rest)

/-- `x*` for a single-character class `x` (e.g. `\s*`). -/
def pStarCh (p : Char → Bool) : RPat := fun cs k => starGo p cs k

/-- `x+` for a single-character class `x` (e.g. `\s+`, `\w+`). -/
def pPlusCh (p : Char → Bool) : RPat :=
  pSeq (pChr p) (pStarCh p)

/-- The `$` anchor without the `m` flag: end of input, zero-width. -/
def pEnd : RPat := fun cs k =>
  match cs with
  | [] => k []
  | _ :: _ => none

/-- The `$` anchor with the `m` flag: end of input or before a `\n`. -/
def pEndM : RPat := fun cs k =>
  match cs with
  | [] => k []
  | c :: _ => if c = '\n' then k cs else none

/-- Whether fragment `r` can match starting at `cs` (used for zero-width
lookahead `(?=r)`). -/
def canMatch (r : RPat) (cs : List Char) : Bool :=
  (r cs (fun rest => some rest)).isSome

/-- The lazy capturing group `([^]*?)` followed by lookahead `(?=la)` at
the end of a pattern: extend the capture one character at a time, checking
the lookahead before each extension (shortest capture first). -/
def lazyCapture (la : RPat) : List Char → List Char → Option (List Char)
  | acc, [] => if canMatch la [] then some acc.reverse else none
  | acc, c :: rest =>
    if canMatch la (c :: rest) then some acc.reverse
    else lazyCapture la (c :: acc) rest

/-- Leftmost-match scan: try the matcher at every start position, earliest
position first, as the JS engine does. -/
def scanPos (m : List Char → Option (List Char)) : List Char → Option (List Char)
  | [] => m []
  | c :: rest => (m (c :: rest)).orElse (fun _ => scanPos m rest)

/-- Leftmost-match scan that also tracks the previous character, needed to
evaluate the multiline `^` assertion of pattern 3. -/
def scanPosPrev (m : Option Char → List Char → Option (List Char)) :
    Option Char → List Char → Option (List Char)
  | prev, [] => m prev []
  | prev, c :: rest => (m prev (c :: rest)).orElse (fun _ => scanPosPrev m (some c) rest)

def imageWord : String := "Image"

/-- Prefix of demultiplexer pattern 1, `Image\s+<filename>\s*:`, with the
filename escaped so it matches literally. -/
def pre1 (filename : String) : RPat :=
  pSeq (pLit imageWord.data)
    (pSeq (pPlusCh jsSpace)
      (pSeq (pLit filename.data)
        (pSeq (pStarCh jsSpace) (pChr (fun c => c = ':')))))

/-- Lookahead of pattern 1: `(?=Image\s+\w|$)`. -/
def la1 : RPat :=
  pAlt (pSeq (pLit imageWord.data) (pSeq (pPlusCh jsSpace) (pChr jsWordChar))) pEnd

/-- Run pattern 1, `Image\s+<filename>\s*:([^]*?)(?=Image\s+\w|$)` with
flag `i`, returning the captured group of the leftmost match. -/
def runP1 (responseText filename : String) : Option String :=
  (scanPos (fun cs => pre1 filename cs (fun rest => lazyCapture la1 [] rest))
    responseText.data).map String.mk

/-- Prefix of demultiplexer pattern 2, `<filename>\s*:`. -/
def pre2 (filename : String) : RPat :=
  pSeq (pLit filename.data) (pSeq (pStarCh jsSpace) (pChr (fun c => c = ':')))

/-- Lookahead of pattern 2: `(?=\w+\.\w+\s*:|$)`. -/
def la2 : RPat :=
  pAlt
    (pSeq (pPlusCh jsWordChar)
      (pSeq (pChr (fun c => c = '.'))
        (pSeq (pPlusCh jsWordChar)
          (pSeq (pStarCh jsSpace) (pChr (fun c => c = ':'))))))
    pEnd

/-- Run pattern 2, `<filename>\s*:([^]*?)(?=\w+\.\w+\s*:|$)` with flag `i`. -/
def runP2 (responseText filename : String) : Option String :=
  (scanPos (fun cs => pre2 filename cs (fun rest => lazyCapture la2 [] rest))
    responseText.data).map String.mk

/-- Lookahead of pattern 3: `(?=\s|$)` with the `m` flag. -/
def la3 : RPat :=
  pAlt (pChr jsSpace) pEndM

/-- The capturing group `([A-Z])` of pattern 3 followed by its lookahead;
the pattern ends after the lookahead. -/
def capLetter : RPat := fun cs _ =>
  match cs with
  | [] => none
  | c :: rest => if c.isUpper && canMatch la3 rest then some [c] else none

/-- Body of pattern 3 after the `(?:^|\n)` prefix:
`\s*<index+1>[.)\s]+([A-Z])(?=\s|$)`. -/
def body3 (index : Nat) : RPat :=
  pSeq (pStarCh jsSpace)
    (pSeq (pLit (toString (index + 1)).data)
      (pSeq (pPlusCh (fun c => c = '.' || c = ')' || jsSpace c)) capLetter))

/-- Run pattern 3, `(?:^|\n)\s*<index+1>[.)\s]+([A-Z])(?=\s|$)` with flags
`im`: the `^` alternative is a zero-width multiline line-start assertion,
the `\n` alternative consumes a newline. -/
def runP3 (responseText : String) (index : Nat) : Option String :=
  (scanPosPrev
    (fun prev cs =>
      (if prev = none ∨ prev = some '\n' then
        body3 index cs (fun rest => some rest)
      else none).orElse
        (fun _ => pChr (fun c => c = '\n') cs (fun rest => body3 index rest (fun r => some r))))
    none responseText.data).map String.mk

/-- Word boundary on the left of a letter token: input start or a
non-word previous character. -/
def noWordBoundaryBefore : Option Char → Bool
  | none => true
  | some p => !jsWordChar p

/-- Word boundary on the right of a letter token: input end or a non-word
next character. -/
def noWordBoundaryAfter : List Char → Bool
  | [] => true
  | d :: _ => !jsWordChar d

/-- All matches of the global regex `/\b[A-D]\b/g` over the text, in order:
standalone capital letters A–D delimited by word boundaries. -/
def letterScan : Option Char → List Char → List String
  | _, [] => []
  | prev, c :: rest =>
    if (c = 'A' || c = 'B' || c = 'C' || c = 'D') &&
        noWordBoundaryBefore prev && noWordBoundaryAfter rest then
      String.mk [c] :: letterScan (some c) rest
    else
      letterScan (some c) rest

/-- `responseText.match(/\b[A-D]\b/g)` as an ordered token list. -/
def letterTokens (responseText : String) : List String :=
  letterScan none responseText.data

/-- Split on every character satisfying `p`, keeping empty pieces (the JS
`String.prototype.split` with a single-character class). -/
def splitChAux (p : Char → Bool) : List Char → List Char → List (List Char)
  | acc, [] => [acc.reverse]
  | acc, c :: rest =>
    if p c then acc.reverse :: splitChAux p [] rest
    else splitChAux p (c :: acc) rest

/-- The line list of the line-by-line fallback:
`responseText.split(/\n+/).filter(line => line.trim().length > 0)`.
Splitting on every `\n` and dropping blank pieces coincides with splitting
on `\n` runs and dropping blank lines. -/
def linesOf (responseText : String) : List String :=
  ((splitChAux (fun c => c = '\n') [] responseText.data).map String.mk).filter
    (fun line => jsTrim line ≠ "")

/-- The line-by-line fallback: take the `index`-th nonblank line, and from
it the first `\b([A-D])\b` token if any, otherwise the trimmed line. -/
def lineAnswer (responseText : String) (index : Nat) : Option String :=
  match (linesOf responseText).get? index with
  | none => none
  | some line =>
    some (match (letterTokens line).head? with
          | some tok => tok
          | none => jsTrim line)

/-- The pattern loop of `parseBatchResponse`: try the three compiled
patterns in order (the loop bound `patterns.length - 1` leaves the fourth
array entry unused); the first one to produce a non-empty group wins and
its group is trimmed, a matching pattern with an empty group falls through
to the next pattern, and no match leaves the empty string. -/
def stepPat : List (Option String) → String
  | [] => ""
  | some g :: rest => if g = "" then stepPat rest else jsTrim g
  | none :: rest => stepPat rest

/-- Result of the pattern-loop stage for one filename. -/
def patExtract (responseText filename : String) (index : Nat) : String :=
  stepPat
    [ runP1 responseText filename,
      runP2 responseText filename,
      runP3 responseText index ]

/-- Per-filename extraction cascade of `parseBatchResponse`: pattern loop,
then positional letter extraction whenever the current result is empty or
longer than 10 characters, then the line-by-line fallback whenever the
result is still empty, then the whole response text as terminal fallback. -/
def extractResponse (responseText filename : String) (index : Nat) : String :=
  let e1 := patExtract responseText filename index
  let e2 :=
    if e1 = "" ∨ 10 < e1.length then
      match (letterTokens responseText).get? index with
      | some tok => tok
      | none => e1
    else e1
  let e3 :=
    if e2 = "" then
      match lineAnswer responseText index with
      | some a => a
      | none => e2
    else e2
  if e3 = "" then responseText else e3

/-- One element of the list `parseBatchResponse` returns: a filename with
its singleton list of per-image responses. -/
structure BatchItem where
  filename : String
  responses : List Response
deriving DecidableEq, Repr

/-- Embedding of `parseBatchResponse` (server.js): a failed batch call is
copied to every filename unchanged (plus the filename field); a successful
one is demultiplexed per filename through the extraction cascade. -/
def parseBatchResponse (batchResponse : Response) (filenames : List String) :
    List BatchItem :=
  if !batchResponse.success then
    filenames.map (fun filename =>
      { filename := filename,
        responses := [ { batchResponse with filename := some filename } ] })
  else
    let responseText := batchResponse.response
    filenames.enum.map (fun p =>
      { filename := p.2,
        responses := [ { batchResponse with
                          response := extractResponse responseText p.2 p.1,
                          filename := some p.2 } ] })

def modelO4 : String := "o4-mini"

def modelSonnet : String := "claude-sonnet-4-20250514"

def noResponseMsg : String := "No response"

/-- The two models the batch endpoint calls (one `callOpenAIBatch` and one
`callClaudeBatch` invocation per request). -/
def batchModels : List String := [ modelO4, modelSonnet ]

/-- `items[index]?.responses[0] || deflt`, the per-image lookup of the
batch endpoint's combine step. -/
def getResp (items : List BatchItem) (index : Nat) (deflt : Response) : Response :=
  match items.get? index with
  | none => deflt
  | some it =>
    match it.responses.head? with
    | none => deflt
    | some r => r

def defaultO4 : Response :=
  { success := false, error := some noResponseMsg, model := modelO4 }

def defaultSonnet : Response :=
  { success := false, error := some noResponseMsg, model := modelSonnet }

/-- The JSON body the `/api/analyze-batch` endpoint sends on success. -/
structure BatchReply where
  results : List BatchItem
  batchProcessed : Bool
  originalApiCallsSaved : Int
deriving DecidableEq, Repr

/-- Success path of the `/api/analyze-batch` endpoint after both batch
calls settle: demultiplex each model's combined answer, pair the two
per-image responses, analyze them, and report the saved call count
`(req.files.length * 2) - 2`. -/
def analyzeBatchReply (openaiResult claudeResult : Response)
    (filenames : List String) : BatchReply :=
  let openaiResults := parseBatchResponse openaiResult filenames
  let claudeResults := parseBatchResponse claudeResult filenames
  { results := filenames.enum.map (fun p =>
      { filename := p.2,
        responses := analyzeResponses
          [ getResp openaiResults p.1 defaultO4,
            getResp claudeResults p.1 defaultSonnet ] }),
    batchProcessed := true,
    originalApiCallsSaved := (filenames.length : Int) * 2 - 2 }

/-! Concrete instances used by witnesses and counterexamples. -/

def strWs1 : String := "w w w w w"

def strWs2 : String := "w z z z z"

def respW1 : Response := { response := strWs1, success := true }

def respW2 : Response := { response := strWs2, success := true }

def strA : String := "A"

def strB : String := "B"

def respA : Response := { response := strA, success := true }

def respB : Response := { response := strB, success := true }

def demoRs : List Response := [ respA, respB ]

/-- The analyzer's output entry for `respA` within `demoRs`. -/
def demoT : Response :=
  { response := strA, success := true, matchCount := some 1,
    status := some statusDifferent }

def timeoutMsg : String := "timeout"

def bFail : Response := { success := false, error := some timeoutMsg }

def fnA : String := "a.jpg"

def fnB : String := "b.jpg"

def fnCat : String := "cat.jpg"

def fnDog : String := "dog.jpg"

def rtC8 : String := "Image cat.jpg: A\nImage dog.jpg: B"

def batchC8 : Response := { response := rtC8, success := true }

def capA : String := " A\n"

def capB : String := " B"

def rtC3 : String := "Image cat.jpg: the answer is B definitely"

def ansLong : String := "the answer is B definitely"

/-! Helper lemmas about the analyzer. -/

theorem zip_map_self {α β γ : Type} (l : List α) (f : α → β) (g : α × β → γ) :
    (l.zip (l.map f)).map g = l.map (fun a => g (a, f a)) := by
  induction l with
  | nil => rfl
  | cons x xs ih => simp [ih]

theorem jsWords_ne_nil (s : String) : jsWords s ≠ [] := by
  unfold jsWords
  cases h : tokensAux jsSpace [] s.data with
  | nil => simp
  | cons t ts => simp

theorem filter_contains_self (l : List String) :
    l.filter (fun w => l.contains w) = l := by
  apply List.filter_eq_self.mpr
  intro a ha
  simpa using ha

theorem respMatch_self (s : String) : respMatch s s = true := by
  unfold respMatch
  by_cases h1 : s.length = 1 ∧ s.length = 1
  · simp [h1]
  · by_cases h2 : s.length ≤ 5 ∧ s.length ≤ 5
    · simp [h1, h2]
    · have hw : jsWords s ≠ [] := jsWords_ne_nil s
      have hlen : 0 < (jsWords s).length := List.length_pos.mpr hw
      simp only [h1, h2, if_false]
      rw [filter_contains_self]
      simp only [decide_eq_true_eq, Nat.max_self]
      omega

theorem errTag_success (r : Response) : (errTag r).success = r.success := rfl

theorem errTag_errTag (r : Response) : errTag (errTag r) = errTag r := rfl

theorem tagOf_success (texts : List String) (p : Response × String) :
    (tagOf texts p).success = p.1.success := rfl

theorem tagOf_response (texts : List String) (p : Response × String) :
    (tagOf texts p).response = p.1.response := rfl

theorem tagOf_matchCount (texts : List String) (p : Response × String) :
    (tagOf texts p).matchCount
      = some (texts.filter (fun text => respMatch p.2 text)).length := rfl

theorem tagOf_tagOf (texts : List String) (r : Response) (ct : String) :
    tagOf texts (tagOf texts (r, ct), ct) = tagOf texts (r, ct) := rfl

/-- When no response succeeded, the analyzer maps every entry to its
error-tagged copy. -/
theorem analyze_none (rs : List Response)
    (h : rs.filter (fun r => r.success) = []) :
    analyzeResponses rs = rs.map errTag := by
  unfold analyzeResponses
  rw [h]
  simp

/-- When at least one response succeeded, the analyzer's output is the
tagged successful responses followed by the error-tagged failed ones. -/
theorem analyze_decomp (rs : List Response)
    (h : rs.filter (fun r => r.success) ≠ []) :
    analyzeResponses rs
      = (rs.filter (fun r => r.success)).map
          (fun r => tagOf ((rs.filter (fun r => r.success)).map normText)
            (r, normText r))
        ++ (rs.filter (fun r => !r.success)).map errTag := by
  unfold analyzeResponses
  have hlen : ¬(rs.filter (fun r => r.success)).length < 1 := by
    have := List.length_pos.mpr h
    omega
  rw [if_neg hlen]
  show List.map (tagOf _) ((rs.filter (fun r => r.success)).zip
      ((rs.filter (fun r => r.success)).map normText)) ++ _ = _
  rw [zip_map_self]

/-- Every successful entry of the analyzer's output is the tag of some
successful input response. -/
theorem analyze_mem_ok (rs : List Response) (t : Response)
    (ht : t ∈ analyzeResponses rs) (hs : t.success = true) :
    ∃ r ∈ rs.filter (fun r => r.success),
      t = tagOf ((rs.filter (fun r => r.success)).map normText) (r, normText r) := by
  by_cases h : rs.filter (fun r => r.success) = []
  · exfalso
    rw [analyze_none rs h] at ht
    obtain ⟨r, hr, hrt⟩ := List.mem_map.mp ht
    have hrf : r.success = false := by
      by_contra hc
      have : r ∈ rs.filter (fun r => r.success) := by
        refine List.mem_filter.mpr ⟨hr, ?_⟩
        simpa using Bool.of_not_eq_false hc
      rw [h] at this
      exact absurd this (List.not_mem_nil r)
    rw [← hrt] at hs
    rw [errTag_success] at hs
    rw [hrf] at hs
    exact Bool.false_ne_true hs
  · rw [analyze_decomp rs h] at ht
    rcases List.mem_append.mp ht with hmem | hmem
    · obtain ⟨r, hr, hrt⟩ := List.mem_map.mp hmem
      exact ⟨r, hr, hrt.symm⟩
    · exfalso
      obtain ⟨r, hr, hrt⟩ := List.mem_map.mp hmem
      have hrf : (!r.success) = true := (List.mem_filter.mp hr).2
      rw [← hrt, errTag_success] at hs
      rw [hs] at hrf
      simp at hrf

/-- C1 counterexample: on the successful answers `"w w w w w"` and
`"w z z z z"` (both longer than 5 characters) the analyzer judges the first
equivalent to the second — the five duplicate occurrences of `w` all count,
giving overlap 5/5 — although only one distinct word is shared, so the
spec's distinct-intersection overlap is 1/5 ≤ 0.8 and the claim calls them
not equivalent; the analyzer output is asymmetric (consensus vs different)
as a consequence. -/
theorem overlap_counterexample :
    respMatch strWs1 strWs2 = true ∧ specEquivalent strWs1 strWs2 = false ∧
    (analyzeResponses [ respW1, respW2 ]).map (fun r => r.status)
      = [ some statusConsensus, some statusDifferent ] := by
  refine ⟨by decide, ?_, by decide⟩
  unfold specEquivalent
  rw [if_neg (by decide : ¬(strWs1.length ≤ 5 ∧ strWs2.length ≤ 5))]
  rw [show specOverlapCount strWs1 strWs2 = 1 from by decide]
  rw [show (jsWords strWs1).length = 5 from by decide]
  rw [show (jsWords strWs2).length = 5 from by decide]
  apply decide_eq_false
  norm_num

/-- C1 (amended): for a pair of normalized successful texts the analyzer
judges them equivalent iff — when both have length ≤ 5 characters — the
strings are exactly equal, and otherwise iff the word-overlap ratio
(number of word occurrences of the first text whose word also occurs in
the second text, divided by the larger word count) exceeds 0.8; duplicate
words of the first text are counted with multiplicity, so duplicates do
inflate the overlap and the judgement is asymmetric. -/
theorem respMatch_iff_overlap (a b : String) :
    respMatch a b = true ↔
      (if a.length ≤ 5 ∧ b.length ≤ 5 then a = b
       else (codeOverlapCount a b : ℚ) /
         (max (jsWords a).length (jsWords b).length : ℚ) > 4 / 5) := by
  by_cases h2 : a.length ≤ 5 ∧ b.length ≤ 5
  · rw [if_pos h2]
    unfold respMatch
    by_cases h1 : a.length = 1 ∧ b.length = 1
    · simp [h1, h2]
    · simp [h1, h2]
  · rw [if_neg h2]
    have h1 : ¬(a.length = 1 ∧ b.length = 1) := by
      intro hc
      exact h2 ⟨by omega, by omega⟩
    unfold respMatch
    rw [if_neg h1, if_neg h2]
    simp only [decide_eq_true_eq]
    have hm : 0 < max (jsWords a).length (jsWords b).length :=
      lt_max_of_lt_left (List.length_pos.mpr (jsWords_ne_nil a))
    have hmq : (0:ℚ) < (max (jsWords a).length (jsWords b).length : ℚ) := by
      exact_mod_cast hm
    rw [gt_iff_lt, div_lt_div_iff₀ (by norm_num) hmq]
    rw [show ((4:ℚ) * (max (jsWords a).length (jsWords b).length : ℚ)
          < (codeOverlapCount a b : ℚ) * 5)
        ↔ (4 * max (jsWords a).length (jsWords b).length
          < codeOverlapCount a b * 5) from by exact_mod_cast Iff.rfl]
    unfold codeOverlapCount
    omega

/-- C4: failed answers are isolated — the analyzer's output is the analysis
of the successful answers alone, followed by the failed answers tagged
`error` (so a failed answer never takes part in a similarity comparison and
always gets `error` whatever the other answers contain); and when every
answer failed, every entry is emitted with the `error` tag and no
comparison happens. -/
theorem error_entries_isolated (rs : List Response) :
    analyzeResponses rs
      = analyzeResponses (rs.filter (fun r => r.success))
        ++ (rs.filter (fun r => !r.success)).map errTag
    ∧ ((∀ r ∈ rs, r.success = false) → analyzeResponses rs = rs.map errTag) := by
  constructor
  · by_cases h : rs.filter (fun r => r.success) = []
    · rw [analyze_none rs h, h]
      have hall : ∀ r ∈ rs, ¬(r.success = true) := List.filter_eq_nil_iff.mp h
      have hneg : rs.filter (fun r => !r.success) = rs := by
        apply List.filter_eq_self.mpr
        intro r hr
        simpa using hall r hr
      rw [hneg]
      rfl
    · rw [analyze_decomp rs h]
      have hff : (rs.filter (fun r => r.success)).filter (fun r => r.success)
          = rs.filter (fun r => r.success) := by
        apply List.filter_eq_self.mpr
        intro r hr
        exact (List.mem_filter.mp hr).2
      have hfe : (rs.filter (fun r => r.success)).filter (fun r => !r.success)
          = [] := by
        apply List.filter_eq_nil_iff.mpr
        intro r hr
        have := (List.mem_filter.mp hr).2
        simp [this]
      have h' : (rs.filter (fun r => r.success)).filter (fun r => r.success)
          ≠ [] := by rw [hff]; exact h
      rw [analyze_decomp (rs.filter (fun r => r.success)) h', hff, hfe]
      simp
  · intro hall
    apply analyze_none
    apply List.filter_eq_nil_iff.mpr
    intro r hr
    simp [hall r hr]

/-- C4 witness: a single failed answer comes back tagged `error`. -/
theorem error_entries_isolated_witness :
    analyzeResponses [ bFail ] = [ errTag bFail ] :=
  (error_entries_isolated [ bFail ]).2 (by decide)

/-- C5: demultiplexing a failed batch yields exactly one answer per
filename, in order, each one the failed batch answer itself (same
`success = false`, same error message), with no recovery attempted. -/
theorem parseBatch_failed (b : Response) (filenames : List String)
    (h : b.success = false) :
    (parseBatchResponse b filenames).map (fun it => it.filename) = filenames ∧
    ∀ it ∈ parseBatchResponse b filenames,
      it.responses = [ { b with filename := some it.filename } ] ∧
      ∀ r ∈ it.responses, r.success = false ∧ r.error = b.error := by
  unfold parseBatchResponse
  rw [h]
  simp only [Bool.not_false, if_pos]
  constructor
  · induction filenames with
    | nil => rfl
    | cons f fs ih =>
      simp only [List.map_cons]
      rw [ih]
  · intro it hit
    obtain ⟨fn, _, hform⟩ := List.mem_map.mp hit
    constructor
    · rw [← hform]
    · intro r hrmem
      rw [← hform] at hrmem
      simp only [List.mem_singleton] at hrmem
      rw [hrmem]
      exact ⟨rfl, rfl⟩

/-- C5 witness: a failed batch over two filenames yields the two filenames
in order, each failing with the batch's own error message. -/
theorem parseBatch_failed_witness :
    (parseBatchResponse bFail [ fnA, fnB ]).map (fun it => it.filename)
      = [ fnA, fnB ] :=
  (parseBatch_failed bFail [ fnA, fnB ] rfl).1

/-- C7: the analyzer's output is the successful answers first — in their
analyzed order, projecting to the successful inputs in input order —
followed by the failed answers tagged `error`; the output order therefore
need not match the input order. -/
theorem analyze_output_order (rs : List Response) :
    ∃ a b, analyzeResponses rs = a ++ b
      ∧ a.map (fun t => (t.response, t.success))
          = (rs.filter (fun r => r.success)).map (fun r => (r.response, r.success))
      ∧ b = (rs.filter (fun r => !r.success)).map errTag := by
  by_cases h : rs.filter (fun r => r.success) = []
  · refine ⟨[], rs.map errTag, ?_, ?_, ?_⟩
    · rw [analyze_none rs h]
      rfl
    · rw [h]
    · have hall : ∀ r ∈ rs, ¬(r.success = true) := List.filter_eq_nil_iff.mp h
      have hneg : rs.filter (fun r => !r.success) = rs := by
        apply List.filter_eq_self.mpr
        intro r hr
        simpa using hall r hr
      rw [hneg]
  · refine ⟨_, _, analyze_decomp rs h, ?_, rfl⟩
    rw [List.map_map]
    apply List.map_congr_left
    intro r _
    rfl

/-- C9: the batch endpoint reports `originalApiCallsSaved` equal to
`N × M − M` for `N` uploaded images and the `M = 2` participating models
(one batch call per model instead of one call per image per model). -/
theorem batch_saved_calls (openaiResult claudeResult : Response)
    (filenames : List String) :
    (analyzeBatchReply openaiResult claudeResult filenames).originalApiCallsSaved
      = (filenames.length : Int) * batchModels.length - batchModels.length := by
  rfl

theorem tagOf_status (texts : List String) (p : Response × String) :
    (tagOf texts p).status
      = some (if (texts.filter (fun text => respMatch p.2 text)).length
            = texts.length then statusConsensus
          else if 1 < (texts.filter (fun text => respMatch p.2 text)).length
          then statusPartialTag
          else statusDifferent) := rfl

/-- C2: when some answer succeeded, every successful output entry carries
`matchCount` equal to the number of successful answers (itself included)
judged equivalent to it, this count lies between 1 and `|ok|`, and the
status is `consensus` iff the count equals `|ok|` (so a single successful
answer is `consensus` with count 1), `partial` iff the count is strictly
between 1 and `|ok|`, and `different` iff the count is 1 while `|ok| > 1`. -/
theorem analyze_matchCount_status (rs : List Response) (t : Response)
    (hok : rs.filter (fun r => r.success) ≠ [])
    (ht : t ∈ analyzeResponses rs) (hs : t.success = true) :
    t.matchCount = some (countEquiv rs t.response) ∧
    1 ≤ countEquiv rs t.response ∧
    countEquiv rs t.response ≤ (rs.filter (fun r => r.success)).length ∧
    (t.status = some statusConsensus
      ↔ countEquiv rs t.response = (rs.filter (fun r => r.success)).length) ∧
    (t.status = some statusPartialTag
      ↔ 1 < countEquiv rs t.response
        ∧ countEquiv rs t.response < (rs.filter (fun r => r.success)).length) ∧
    (t.status = some statusDifferent
      ↔ countEquiv rs t.response = 1
        ∧ 1 < (rs.filter (fun r => r.success)).length) := by
  obtain ⟨r, hr, rfl⟩ := analyze_mem_ok rs t ht hs
  have hcount : countEquiv rs (tagOf ((rs.filter (fun r => r.success)).map normText)
        (r, normText r)).response
      = (((rs.filter (fun r => r.success)).map normText).filter
          (fun text => respMatch (normText r) text)).length := rfl
  set texts := (rs.filter (fun r => r.success)).map normText with htexts
  set m := (texts.filter (fun text => respMatch (normText r) text)).length with hmdef
  have hTL : texts.length = (rs.filter (fun r => r.success)).length :=
    List.length_map _ _
  have hmem : normText r ∈ texts := List.mem_map_of_mem normText hr
  have hm1 : 1 ≤ m := by
    have hin : normText r ∈ texts.filter (fun text => respMatch (normText r) text) :=
      List.mem_filter.mpr ⟨hmem, respMatch_self (normText r)⟩
    have := List.length_pos.mpr (List.ne_nil_of_mem hin)
    omega
  have hmL : m ≤ (rs.filter (fun r => r.success)).length := by
    have := List.length_filter_le (fun text => respMatch (normText r) text) texts
    omega
  have hcp : statusConsensus ≠ statusPartialTag := by decide
  have hcd : statusConsensus ≠ statusDifferent := by decide
  have hpd : statusPartialTag ≠ statusDifferent := by decide
  rw [hcount]
  refine ⟨rfl, hm1, hmL, ?_, ?_, ?_⟩ <;>
    rw [tagOf_status texts (r, normText r)] <;>
    rw [← hmdef, hTL]
  · constructor
    · intro hst
      by_contra hne
      rw [if_neg hne] at hst
      by_cases h1 : 1 < m
      · rw [if_pos h1] at hst
        exact hcp (Option.some.inj hst).symm
      · rw [if_neg h1] at hst
        exact hcd (Option.some.inj hst).symm
    · intro he
      rw [if_pos he]
  · constructor
    · intro hst
      by_cases hne : m = (rs.filter (fun r => r.success)).length
      · rw [if_pos hne] at hst
        exact absurd (Option.some.inj hst) hcp
      · rw [if_neg hne] at hst
        by_cases h1 : 1 < m
        · exact ⟨h1, by omega⟩
        · rw [if_neg h1] at hst
          exact absurd (Option.some.inj hst) hpd.symm
    · intro ⟨h1, h2⟩
      rw [if_neg (by omega : ¬m = (rs.filter (fun r => r.success)).length),
        if_pos h1]
  · constructor
    · intro hst
      by_cases hne : m = (rs.filter (fun r => r.success)).length
      · rw [if_pos hne] at hst
        exact absurd (Option.some.inj hst) hcd
      · rw [if_neg hne] at hst
        by_cases h1 : 1 < m
        · rw [if_pos h1] at hst
          exact absurd (Option.some.inj hst) hpd
        · exact ⟨by omega, by omega⟩
    · intro ⟨h1, h2⟩
      rw [if_neg (by omega : ¬m = (rs.filter (fun r => r.success)).length),
        if_neg (by omega : ¬1 < m)]

/-- C2 witness: in the pair `["A", "B"]` the first answer matches only
itself, so its count is 1 of 2 and it is tagged `different`. -/
theorem analyze_matchCount_status_witness :
    demoT.matchCount = some (countEquiv demoRs demoT.response) ∧
    1 ≤ countEquiv demoRs demoT.response ∧
    countEquiv demoRs demoT.response
      ≤ (demoRs.filter (fun r => r.success)).length ∧
    (demoT.status = some statusConsensus
      ↔ countEquiv demoRs demoT.response
        = (demoRs.filter (fun r => r.success)).length) ∧
    (demoT.status = some statusPartialTag
      ↔ 1 < countEquiv demoRs demoT.response
        ∧ countEquiv demoRs demoT.response
          < (demoRs.filter (fun r => r.success)).length) ∧
    (demoT.status = some statusDifferent
      ↔ countEquiv demoRs demoT.response = 1
        ∧ 1 < (demoRs.filter (fun r => r.success)).length) :=
  analyze_matchCount_status demoRs demoT (by decide) (by decide) (by decide)

/-- C10: when at most two input answers succeeded (the production setup
always supplies exactly two model answers), no output entry is ever tagged
`partial`: each successful entry is `consensus` or `different`, each failed
entry is `error`. -/
theorem analyze_no_partial_of_two (rs : List Response)
    (h2 : (rs.filter (fun r => r.success)).length ≤ 2) :
    ∀ t ∈ analyzeResponses rs,
      (t.success = true →
        t.status = some statusConsensus ∨ t.status = some statusDifferent) ∧
      (t.success = false → t.status = some statusError) ∧
      t.status ≠ some statusPartialTag := by
  have hep : statusError ≠ statusPartialTag := by decide
  have hcp : statusConsensus ≠ statusPartialTag := by decide
  have hdp : statusDifferent ≠ statusPartialTag := by decide
  intro t ht
  by_cases hs : t.success = true
  · obtain ⟨r, hr, rfl⟩ := analyze_mem_ok rs t ht hs
    set texts := (rs.filter (fun r => r.success)).map normText with htexts
    set m := (texts.filter (fun text => respMatch (normText r) text)).length
      with hmdef
    have hTL : texts.length = (rs.filter (fun r => r.success)).length :=
      List.length_map _ _
    have hmL : m ≤ texts.length := by
      have := List.length_filter_le (fun text => respMatch (normText r) text) texts
      omega
    have hst := tagOf_status texts (r, normText r)
    rw [← hmdef] at hst
    have hcase : (tagOf texts (r, normText r)).status = some statusConsensus
        ∨ (tagOf texts (r, normText r)).status = some statusDifferent := by
      by_cases he : m = texts.length
      · left
        rw [hst, if_pos he]
      · right
        have h1 : ¬1 < m := by omega
        rw [hst, if_neg he, if_neg h1]
    refine ⟨fun _ => hcase, fun hf => ?_, ?_⟩
    · rw [tagOf_success] at hs
      rw [tagOf_success] at hf
      rw [hs] at hf
      exact absurd hf (by simp)
    · rcases hcase with hc | hc <;> rw [hc] <;>
        simp only [ne_eq, Option.some.injEq]
      · exact hcp
      · exact hdp
  · have hs' : t.success = false := by
      cases hb : t.success
      · rfl
      · exact absurd hb hs
    have herr : t.status = some statusError := by
      by_cases h : rs.filter (fun r => r.success) = []
      · rw [analyze_none rs h] at ht
        obtain ⟨r, _, rfl⟩ := List.mem_map.mp ht
        rfl
      · rw [analyze_decomp rs h] at ht
        rcases List.mem_append.mp ht with hmem | hmem
        · exfalso
          obtain ⟨r, hr, rfl⟩ := List.mem_map.mp hmem
          have hrs : r.success = true := by
            simpa using (List.mem_filter.mp hr).2
          rw [tagOf_success] at hs'
          rw [hrs] at hs'
          exact absurd hs' (by simp)
        · obtain ⟨r, _, rfl⟩ := List.mem_map.mp hmem
          rfl
    refine ⟨fun hc => absurd hc hs, fun _ => herr, ?_⟩
    rw [herr]
    simp only [ne_eq, Option.some.injEq]
    exact hep

/-- C10 witness: in the two-answer pair `["A", "B"]` the first output
entry is not tagged `partial`. -/
theorem analyze_no_partial_of_two_witness :
    demoT.status ≠ some statusPartialTag :=
  ((analyze_no_partial_of_two demoRs (by decide)) demoT (by decide)).2.2

/-- C6: the analyzer is idempotent — re-running it on its own tagged output
recomputes `matchCount` and `status` from the `response` and `success`
fields alone and reproduces the same list, because tagging preserves those
two fields and re-tagging overwrites `matchCount`/`status` with the same
values. -/
theorem analyze_idempotent (rs : List Response) :
    analyzeResponses (analyzeResponses rs) = analyzeResponses rs := by
  by_cases h : rs.filter (fun r => r.success) = []
  · rw [analyze_none rs h]
    have hall : ∀ r ∈ rs, ¬(r.success = true) := List.filter_eq_nil_iff.mp h
    have h2 : (rs.map errTag).filter (fun r => r.success) = [] := by
      apply List.filter_eq_nil_iff.mpr
      intro t htm
      obtain ⟨r, hr, rfl⟩ := List.mem_map.mp htm
      rw [errTag_success]
      exact hall r hr
    rw [analyze_none _ h2, List.map_map]
    apply List.map_congr_left
    intro r _
    exact errTag_errTag r
  · rw [analyze_decomp rs h]
    set texts := (rs.filter (fun r => r.success)).map normText with htexts
    set A := (rs.filter (fun r => r.success)).map
      (fun r => tagOf texts (r, normText r)) with hA
    set F := (rs.filter (fun r => !r.success)).map errTag with hF
    have hAsucc : ∀ t ∈ A, t.success = true := by
      intro t htm
      rw [hA] at htm
      obtain ⟨r, hr, rfl⟩ := List.mem_map.mp htm
      rw [tagOf_success]
      simpa using (List.mem_filter.mp hr).2
    have hFsucc : ∀ t ∈ F, t.success = false := by
      intro t htm
      rw [hF] at htm
      obtain ⟨r, hr, rfl⟩ := List.mem_map.mp htm
      rw [errTag_success]
      simpa using (List.mem_filter.mp hr).2
    have hfilterS : (A ++ F).filter (fun r => r.success) = A := by
      rw [List.filter_append]
      rw [List.filter_eq_self.mpr hAsucc]
      rw [List.filter_eq_nil_iff.mpr (fun t htm => by simp [hFsucc t htm])]
      exact List.append_nil A
    have hfilterF : (A ++ F).filter (fun r => !r.success) = F := by
      rw [List.filter_append]
      rw [List.filter_eq_nil_iff.mpr (fun t htm => by simp [hAsucc t htm])]
      rw [List.filter_eq_self.mpr (fun t htm => by simp [hFsucc t htm])]
      exact List.nil_append F
    have hne : (A ++ F).filter (fun r => r.success) ≠ [] := by
      rw [hfilterS, hA]
      intro hc
      exact h (List.map_eq_nil_iff.mp hc)
    rw [analyze_decomp (A ++ F) hne, hfilterS, hfilterF]
    have hTexts2 : A.map normText = texts := by
      rw [hA, List.map_map, htexts]
      apply List.map_congr_left
      intro r _
      rfl
    rw [hTexts2]
    congr 1
    · rw [hA, List.map_map]
      apply List.map_congr_left
      intro r _
      exact tagOf_tagOf texts r (normText r)
    · rw [hF, List.map_map]
      apply List.map_congr_left
      intro r _
      exact errTag_errTag r

/-! Helper lemmas about the demultiplexer. -/

theorem letterScan_ne_empty (cs : List Char) :
    ∀ (prev : Option Char), ∀ s ∈ letterScan prev cs, s ≠ "" := by
  induction cs with
  | nil =>
    intro prev s hs
    simp [letterScan] at hs
  | cons c rest ih =>
    intro prev s hs
    simp only [letterScan] at hs
    by_cases hcond : ((c = 'A' || c = 'B' || c = 'C' || c = 'D') &&
        noWordBoundaryBefore prev && noWordBoundaryAfter rest) = true
    · rw [if_pos hcond] at hs
      rcases List.mem_cons.mp hs with hh | hh
      · rw [hh]
        intro hc
        exact absurd (congrArg String.data hc) (by simp)
      · exact ih (some c) s hh
    · rw [if_neg hcond] at hs
      exact ih (some c) s hs

theorem letterTokens_get_ne_empty (responseText : String) (index : Nat)
    (tok : String) (h : (letterTokens responseText).get? index = some tok) :
    tok ≠ "" :=
  letterScan_ne_empty responseText.data none tok (List.get?_mem h)

/-- C3 counterexample: on the batch text
`"Image cat.jpg: the answer is B definitely"` the first extraction strategy
(the labeled-segment pattern) yields the non-empty result
`"the answer is B definitely"`, yet the demultiplexer's final answer for
`cat.jpg` is `"B"`: because the pattern result exceeds 10 characters, the
later positional letter-extraction strategy was consulted and overrode it,
contradicting the claim that later strategies are never consulted once a
strategy yields a non-empty result. -/
theorem cascade_counterexample :
    patExtract rtC3 fnCat 0 = ansLong ∧ ansLong ≠ "" ∧ 10 < ansLong.length ∧
    extractResponse rtC3 fnCat 0 = strB ∧ strB ≠ ansLong := by
  refine ⟨by decide, by decide, by decide, by decide, by decide⟩

/-- C3 (amended): the extraction strategies are tried in the documented
cascade order and the first pattern strategy to yield a non-empty result
wins — unless that result is longer than 10 characters, in which case the
positional letter-extraction strategy is additionally consulted and
overrides the pattern result whenever it has a letter for that position;
otherwise later strategies are not consulted for that filename. -/
theorem extract_cascade_amended (responseText filename : String) (index : Nat) :
    (patExtract responseText filename index ≠ "" →
      (patExtract responseText filename index).length ≤ 10 →
      extractResponse responseText filename index
        = patExtract responseText filename index) ∧
    (patExtract responseText filename index ≠ "" →
      10 < (patExtract responseText filename index).length →
      extractResponse responseText filename index
        = match (letterTokens responseText).get? index with
          | some tok => tok
          | none => patExtract responseText filename index) := by
  constructor
  · intro h1 h2
    have hc1 : ¬(patExtract responseText filename index = ""
        ∨ 10 < (patExtract responseText filename index).length) := by
      push_neg
      exact ⟨h1, by omega⟩
    simp only [extractResponse]
    rw [if_neg hc1, if_neg h1, if_neg h1]
  · intro h1 h2
    simp only [extractResponse]
    rw [if_pos (Or.inr h2)]
    cases hget : (letterTokens responseText).get? index with
    | some tok =>
      have htok : tok ≠ "" := letterTokens_get_ne_empty responseText index tok hget
      simp only [hget]
      rw [if_neg htok, if_neg htok]
    | none =>
      simp only [hget]
      rw [if_neg h1, if_neg h1]

/-- C3 amendment witness: with a short pattern result the pattern wins
untouched; with the long pattern result of the counterexample text the
positional letter is what comes out. -/
theorem extract_cascade_amended_witness :
    extractResponse rtC8 fnCat 0 = patExtract rtC8 fnCat 0 ∧
    extractResponse rtC3 fnCat 0
      = match (letterTokens rtC3).get? 0 with
        | some tok => tok
        | none => patExtract rtC3 fnCat 0 :=
  ⟨(extract_cascade_amended rtC8 fnCat 0).1 (by decide) (by decide),
   (extract_cascade_amended rtC3 fnCat 0).2 (by decide) (by decide)⟩

/-- C8: demultiplexing the successful batch answer
`"Image cat.jpg: A\nImage dog.jpg: B"` for filenames
`["cat.jpg", "dog.jpg"]` yields the per-filename answers `A` and `B`, and
both come from the labeled-segment pattern (pattern 1), whose captures are
`" A\n"` and `" B"`. -/
theorem batch_demo_split :
    (parseBatchResponse batchC8 [ fnCat, fnDog ]).map
        (fun it => (it.filename, it.responses.map (fun r => r.response)))
      = [ (fnCat, [ strA ]), (fnDog, [ strB ]) ] ∧
    runP1 rtC8 fnCat = some capA ∧ runP1 rtC8 fnDog = some capB := by
  refine ⟨by decide, by decide, by decide⟩
